import Mathlib

/-!
Verification of the otun reverse-tunnel core (github.com/bc183/otun).

This file shallowly embeds the parts of the Go sources that the checked
properties are about:

* `internal/client/errors.go` — the sentinel errors and the permanent /
  transient classifier;
* `internal/client/client.go` — the registration-error result of `Run` and
  the `RunWithReconnect` loop;
* `internal/client/backoff.go` — exponential backoff with jitter
  (`float64` arithmetic is modelled by exact rational arithmetic);
* `internal/proxy/proxy.go` — the bidirectional splice and `firstError`;
* `internal/server/server.go` — the registry critical section,
  `generateSubdomain` and `extractSubdomain`;
* `internal/protocol/control.go` — the JSON control-message codec.

Go `error` values, byte streams and JSON values are represented by explicit
inductive types; effects (the random draw of the jitter, the random bytes of
`generateSubdomain`, the results of the network attempts) are passed as
parameters, so every definition is executable.
-/

namespace Otun

/-- Model of the Go `error` values that appear in the otun client and proxy.
`shutdown`, `permanentFailure`, `subdomainTaken` and `maxRetriesExceeded` are
the four sentinels created with `errors.New` in `internal/client/errors.go`;
`eof` is `io.EOF`; `errorf msg` is an error built with `errors.New` or
`fmt.Errorf` without `%w`, carrying only its message; `wrap pre inner` is
`fmt.Errorf(pre ++ "%w", inner)`, whose message is `pre` followed by the inner
error's message and whose `Unwrap` returns `inner`. -/
inductive GoError where
  | shutdown
  | permanentFailure
  | subdomainTaken
  | maxRetriesExceeded
  | eof
  | errorf (msg : String)
  | wrap (pre : String) (inner : GoError)
  deriving DecidableEq, Repr

/-- The `Error()` string of a modelled Go error.  The sentinel messages are
the exact strings passed to `errors.New` in `errors.go`; `io.EOF` prints
"EOF"; a wrapping error prepends its own text to the inner message, as
`fmt.Errorf("...: %w", err)` does. -/
def errMessage : GoError → String
  | .shutdown => "client shutdown"
  | .permanentFailure => "permanent failure"
  | .subdomainTaken => "subdomain already in use"
  | .maxRetriesExceeded => "maximum reconnection attempts exceeded"
  | .eof => "EOF"
  | .errorf msg => msg
  | .wrap pre inner => pre ++ errMessage inner

/-- Model of `errors.Is err target` for the targets used in this code base
(sentinel values with no custom `Is` method): walk the `Unwrap` chain and
compare each link with the target. -/
def errorsIs : GoError → GoError → Bool
  | .wrap pre inner, target => (GoError.wrap pre inner == target) || errorsIs inner target
  | e, target => e == target

/-- `isPermanentError` from `internal/client/errors.go`: `nil` is not
permanent, and an error is permanent iff `errors.Is` relates it to one of the
four sentinels. -/
def isPermanentError : Option GoError → Bool
  | none => false
  | some err =>
    errorsIs err .shutdown || errorsIs err .permanentFailure ||
      errorsIs err .subdomainTaken || errorsIs err .maxRetriesExceeded

/-- `firstError` from `internal/proxy/proxy.go`: scan the arguments in order
and return the first that is non-nil and not (an unwrapping of) `io.EOF`;
return `nil` otherwise. -/
def firstError : List (Option GoError) → Option GoError
  | [] => none
  | err :: rest =>
    match err with
    | some e => if !errorsIs e .eof then some e else firstError rest
    | none => firstError rest

/-- Formalisation of the spec's first-error law, written from its words:
keep, in order, the elements that are non-nil and not end-of-stream, and
return the first one, if any. -/
def firstErrorSpec (errs : List (Option GoError)) : Option GoError :=
  (errs.filterMap fun e =>
    match e with
    | some err => if errorsIs err .eof then none else some err
    | none => none).head?

/-- Iterated error wrapping, `fmt.Errorf(p ++ "%w", ·)` once per element. -/
def wrapMany : List String → GoError → GoError
  | [], e => e
  | p :: ps, e => .wrap p (wrapMany ps e)

/-- Whether `sub` occurs as a contiguous substring of `s` (used to state the
spec's "message contains ..." clauses). -/
def containsSub (s sub : String) : Bool :=
  s.data.tails.any fun t => sub.data.isPrefixOf t

/-- The error `Client.Run` returns when the server answers the register
message with an `error` control message carrying `msg`
(`fmt.Errorf("registration failed: %s", m.Message)` in
`internal/client/client.go`): a fresh error value that embeds the server's
text in its message and wraps no sentinel. -/
def registrationError (msg : String) : GoError :=
  .errorf ("registration failed: " ++ msg)

/-- `BackoffConfig` from `internal/client/backoff.go`.  Delay fields are Go
`time.Duration` / `float64` values; they are modelled as exact rationals (the
unit — nanoseconds in Go — is irrelevant to the properties below). -/
structure BackoffConfig where
  initialDelay : ℚ
  maxDelay : ℚ
  multiplier : ℚ
  jitter : ℚ
  maxRetries : ℕ
  deriving DecidableEq, Repr

/-- `DefaultBackoffConfig`: 1 s initial delay, 60 s cap, multiplier 2.0,
jitter 0.25, unlimited retries (values here in seconds). -/
def DefaultBackoffConfig : BackoffConfig :=
  { initialDelay := 1, maxDelay := 60, multiplier := 2, jitter := 1/4, maxRetries := 0 }

/-- `Backoff` retry state: the configuration and the attempt counter.  The
`rng` field of the Go struct is modelled by passing each `Float64()` draw to
`NextDelay` explicitly. -/
structure Backoff where
  config : BackoffConfig
  attempt : ℕ
  deriving DecidableEq, Repr

/-- `NewBackoff`. -/
def NewBackoff (config : BackoffConfig) : Backoff :=
  { config := config, attempt := 0 }

/-- `Backoff.NextDelay`, with the `rng.Float64()` draw passed as `u ∈ [0, 1)`:
increment the attempt counter, compute `initialDelay * multiplier^(attempt-1)`,
cap at `maxDelay`, add `(u*2 - 1) * (delay * jitter)` when jitter is positive,
and clamp at zero.  Returns the updated state and the delay. -/
def Backoff.NextDelay (b : Backoff) (u : ℚ) : Backoff × ℚ :=
  let attempt := b.attempt + 1
  let delay := b.config.initialDelay * b.config.multiplier ^ (attempt - 1)
  let delay := if b.config.maxDelay < delay then b.config.maxDelay else delay
  let delay :=
    if 0 < b.config.jitter then
      delay + (u * 2 - 1) * (delay * b.config.jitter)
    else delay
  let delay := if delay < 0 then 0 else delay
  ({ b with attempt := attempt }, delay)

/-- `Backoff.Reset`. -/
def Backoff.Reset (b : Backoff) : Backoff :=
  { b with attempt := 0 }

/-- `Backoff.MaxRetriesReached`: always false when `MaxRetries` is 0
(unlimited), otherwise `attempt >= MaxRetries`. -/
def Backoff.MaxRetriesReached (b : Backoff) : Bool :=
  if b.config.maxRetries = 0 then false
  else decide (b.config.maxRetries ≤ b.attempt)

/-- The capped deterministic exponential delay the spec's backoff formula is
built from: `d = min(initial * multiplier^(n-1), max)` for attempt `n`. -/
def backoffBase (cfg : BackoffConfig) (n : ℕ) : ℚ :=
  min (cfg.initialDelay * cfg.multiplier ^ (n - 1)) cfg.maxDelay

/-- Abstract result of one `Client.Run` attempt as observed by
`RunWithReconnect` (`internal/client/client.go`): whether the attempt
registered successfully before it ended (`c.tunnelURL` was set non-empty) and
the error the attempt returned. -/
structure AttemptResult where
  registered : Bool
  err : Option GoError
  deriving DecidableEq, Repr

/-- What one iteration of the `RunWithReconnect` loop decides to do. -/
inductive StepOutcome where
  | ret (e : Option GoError)
  | retry
  deriving DecidableEq, Repr

/-- One iteration of the `RunWithReconnect` loop body after `c.Run` returned
`r`: reset the backoff if the attempt had registered, return the result when
it is nil or permanent, return `ErrMaxRetriesExceeded` when the backoff
reports the retry limit, and otherwise consume `NextDelay` — whose only
state effect is incrementing the attempt counter — and go around again. -/
def reconnectStep (b : Backoff) (r : AttemptResult) : StepOutcome × Backoff :=
  let b := if r.registered then b.Reset else b
  if r.err.isNone || isPermanentError r.err then (.ret r.err, b)
  else if b.MaxRetriesReached then (.ret (some .maxRetriesExceeded), b)
  else (.retry, { b with attempt := b.attempt + 1 })

/-- `Client.RunWithReconnect` with reconnection enabled, as a fuel-bounded
loop over the sequence of attempt results.  `attempts i` is what the `(i+1)`-st
call of `c.Run` produces, `cancelled i` is whether the context is observed
cancelled while sleeping after it, and the result pairs the returned error
with the number of `Run` calls made; `none` means the fuel ran out with the
loop still running. -/
def runWithReconnect (attempts : ℕ → AttemptResult) (cancelled : ℕ → Bool)
    (b : Backoff) (i fuel : ℕ) : Option (Option GoError × ℕ) :=
  match fuel with
  | 0 => none
  | fuel + 1 =>
    match reconnectStep b (attempts i) with
    | (.ret e, _) => some (e, i + 1)
    | (.retry, b') =>
      if cancelled i then some (some .shutdown, i + 1)
      else runWithReconnect attempts cancelled b' (i + 1) fuel

/-- The edge's registry of live tunnels, `Server.clients :
map[string]*tunnelClient` in `internal/server/server.go`, modelled as an
association list from subdomain to an abstract tunnel-client identifier.
The registry lock `s.mu` serialises every access, so the map's evolution is
a sequence of the atomic operations below. -/
abbrev Registry := List (String × ℕ)

/-- The collision-check-and-insert critical section of
`Server.handleTunnelClient`: under `s.mu.Lock()`, if the subdomain is already
present reply with the collision error text and leave the registry unchanged;
otherwise insert the new client.  The second component is the error message
sent back, `none` on success. -/
def registerClient (clients : Registry) (sub : String) (id : ℕ) :
    Registry × Option String :=
  match clients.lookup sub with
  | some _ => (clients, some ("subdomain '" ++ sub ++ "' is already in use"))
  | none => ((sub, id) :: clients, none)

/-- `Server.removeClient`: under `s.mu.Lock()`, `delete(s.clients, subdomain)`. -/
def removeClient (clients : Registry) (sub : String) : Registry :=
  clients.filter fun p => p.1 != sub

/-- One serialised registry critical section.  Concurrent acceptance and
removal goroutines interleave, but the lock makes each operation atomic, so
any concurrent execution is a sequence of these operations. -/
inductive RegistryOp where
  | register (sub : String) (id : ℕ)
  | remove (sub : String)
  deriving DecidableEq, Repr

/-- Apply one registry operation (the registration drops the reply here). -/
def applyOp (clients : Registry) : RegistryOp → Registry
  | .register sub id => (registerClient clients sub id).1
  | .remove sub => removeClient clients sub

/-- The registry state after a serialised trace of operations, starting from
the empty map `make(map[string]*tunnelClient)`. -/
def applyTrace (ops : List RegistryOp) : Registry :=
  ops.foldl applyOp []

/-- One nibble to a lowercase hexadecimal character, as used by
`hex.EncodeToString`. -/
def hexDigit (n : ℕ) : Char :=
  if n < 10 then Char.ofNat (48 + n) else Char.ofNat (87 + n)

/-- One byte to its two lowercase hexadecimal characters. -/
def hexEncodeByte (b : ℕ) : List Char :=
  [hexDigit (b / 16), hexDigit (b % 16)]

/-- `generateSubdomain` (`internal/server/server.go`): draw 4 bytes from
`crypto/rand` and return `hex.EncodeToString` of them.  The random bytes are
passed as a parameter; each is a byte value `< 256`. -/
def generateSubdomain (bytes : List ℕ) : String :=
  ⟨(bytes.map hexEncodeByte).flatten⟩

/-- The subdomain-assignment step of `Server.handleTunnelClient` followed by
the collision-checked insertion: an empty requested subdomain is replaced by
a freshly generated one, and whatever string results is passed to the
registry critical section unchanged — the code performs no grammar check. -/
def handleRegister (requested : String) (randBytes : List ℕ)
    (clients : Registry) (id : ℕ) : Registry × Option String :=
  let subdomain := if requested = "" then generateSubdomain randBytes else requested
  registerClient clients subdomain id

/-- Whether a character may appear in a subdomain according to the spec's
grammar (lowercase alphanumeric plus hyphen). -/
def validSubdomainChar (c : Char) : Bool :=
  (decide ('a' ≤ c) && decide (c ≤ 'z')) ||
    (decide ('0' ≤ c) && decide (c ≤ '9')) || c == '-'

/-- Formalisation of the spec's subdomain grammar: lowercase alphanumeric
plus hyphen, 1 to 63 characters. -/
def validSubdomainSpec (s : String) : Bool :=
  decide (1 ≤ s.length) && decide (s.length ≤ 63) && s.data.all validSubdomainChar

/-- Whether a character is a lowercase hexadecimal digit. -/
def isLowerHex (c : Char) : Bool :=
  (decide ('0' ≤ c) && decide (c ≤ '9')) || (decide ('a' ≤ c) && decide (c ≤ 'f'))

/-- Model of Go `strings.Split(l, sep)` for a one-character separator: Go's
split of an empty string is `[""]`, and each separator occurrence starts a
new field. -/
def splitOnChar (sep : Char) : List Char → List (List Char)
  | [] => [[]]
  | c :: rest =>
    if c = sep then [] :: splitOnChar sep rest
    else
      match splitOnChar sep rest with
      | [] => [[c]]
      | p :: ps => (c :: p) :: ps

/-- Joining the fields back with the separator (inverse direction of
`splitOnChar`, used to state that the split model is a genuine splitter). -/
def joinSep (sep : Char) : List (List Char) → List Char
  | [] => []
  | [p] => p
  | p :: ps => p ++ sep :: joinSep sep ps

/-- The port-stripping step of `extractSubdomain`
(`internal/server/server.go`): `strings.LastIndex(host, ":") != -1` together
with `strings.Count(host, ":") == 1` holds exactly when the host contains a
single colon, and then `host[:colonIdx]` is everything before it; hosts with
zero or several colons (IPv6 literals) are left alone. -/
def stripPort (host : String) : String :=
  if host.data.count ':' = 1 then ⟨host.data.takeWhile fun c => c != ':'⟩ else host

/-- `extractSubdomain` (`internal/server/server.go`): strip a port suffix,
split on `.`, and return the first label when there are at least two,
otherwise the empty string. -/
def extractSubdomain (host : String) : String :=
  let h := stripPort host
  let parts := splitOnChar '.' h.data
  if parts.length < 2 then "" else ⟨parts.headD []⟩

/-- The chunks `io.Copy` moves: it repeatedly fills a 32 KiB buffer from the
source and writes it to the destination until the source reports
end-of-stream.  `src` is the full byte sequence the source delivers before
EOF; reads are maximal. -/
def copyChunks : List ℕ → List (List ℕ)
  | [] => []
  | b :: rest => ((b :: rest).take 32768) :: copyChunks ((b :: rest).drop 32768)
  termination_by l => l.length
  decreasing_by simp; omega

/-- Result of one direction of `proxy.Bidirectional`
(`internal/proxy/proxy.go`): the bytes written to the destination by
`io.Copy`, and the half-close — `closeWrite` is called unconditionally after
the copy returns, so the destination's reader observes EOF after exactly
these bytes. -/
structure CopyResult where
  delivered : List ℕ
  closedWrite : Bool
  deriving DecidableEq, Repr

/-- One `io.Copy` direction followed by `closeWrite` on the destination. -/
def copyDirection (src : List ℕ) : CopyResult :=
  { delivered := (copyChunks src).flatten, closedWrite := true }

/-- The observable outcome of `proxy.Bidirectional conn1 conn2`. -/
structure SpliceResult where
  toConn2 : CopyResult
  toConn1 : CopyResult
  conn1Closed : Bool
  conn2Closed : Bool
  err : Option GoError
  deriving DecidableEq, Repr

/-- `proxy.Bidirectional` (`internal/proxy/proxy.go`): two independent
unidirectional copies run concurrently, `in1` being the bytes endpoint 1
writes before signalling end-of-stream and `in2` likewise for endpoint 2;
after both goroutines return, both connections are fully closed and the
result is `firstError` of the two copy errors (`e1`, `e2`, each `none` when
its copy ended at a clean EOF). -/
def Bidirectional (in1 in2 : List ℕ) (e1 e2 : Option GoError) : SpliceResult :=
  { toConn2 := copyDirection in1
    toConn1 := copyDirection in2
    conn1Closed := true
    conn2Closed := true
    err := firstError [e1, e2] }

/-- Minimal JSON value model: the control protocol stores only strings inside
objects, so these two constructors cover every message the codec produces. -/
inductive Json where
  | str (s : String)
  | obj (fields : List (String × Json))

/-- The five control-message variants of `internal/protocol`
(`RegisterMessage`, `RegisteredMessage`, `HeartbeatMessage`,
`HeartbeatAckMessage`, `ErrorMessage`), identified with the payloads their
constructors take; each Go struct also carries its fixed `type` tag. -/
inductive ControlMessage where
  | register (subdomain token : String)
  | registered (url subdomain : String)
  | heartbeat
  | heartbeatAck
  | error (message : String)
  deriving DecidableEq, Repr

/-- JSON encoding of a control message as the `ControlStream` send methods
produce it: `json.Encoder.Encode` of the `NewXxxMessage` value.  Fields
tagged `omitempty` (`subdomain` and `token` of the register message) are
omitted when empty; all other fields are always present. -/
def encodeMessage : ControlMessage → Json
  | .register sub tok =>
    .obj ([("type", .str "register")] ++
      (if sub = "" then [] else [("subdomain", .str sub)]) ++
      (if tok = "" then [] else [("token", .str tok)]))
  | .registered url sub =>
    .obj [("type", .str "registered"), ("url", .str url), ("subdomain", .str sub)]
  | .heartbeat => .obj [("type", .str "heartbeat")]
  | .heartbeatAck => .obj [("type", .str "heartbeat_ack")]
  | .error msg => .obj [("type", .str "error"), ("message", .str msg)]

/-- `json.Unmarshal` of one string-typed struct field: an absent key leaves
the Go zero value `""`, a string value is taken, and a non-string value is a
decode error. -/
def getStringField (fields : List (String × Json)) (key : String) :
    Except String String :=
  match fields.lookup key with
  | none => .ok ""
  | some (.str s) => .ok s
  | some _ => .error "cannot unmarshal field into string"

/-- `ControlStream.ReadMessage` applied to one decoded JSON value: peek the
`type` field (absent means the empty string), then parse the matching
variant, failing on an unknown tag exactly as the Go `switch` does. -/
def decodeMessage : Json → Except String ControlMessage
  | .str _ => .error "cannot unmarshal value into message struct"
  | .obj fields => do
    let t ← getStringField fields "type"
    if t = "register" then do
      let sub ← getStringField fields "subdomain"
      let tok ← getStringField fields "token"
      return .register sub tok
    else if t = "registered" then do
      let url ← getStringField fields "url"
      let sub ← getStringField fields "subdomain"
      return .registered url sub
    else if t = "heartbeat" then return .heartbeat
    else if t = "heartbeat_ack" then return .heartbeatAck
    else if t = "error" then do
      let msg ← getStringField fields "message"
      return .error msg
    else .error ("unknown message type: " ++ t)

/-- Reading a whole control stream: `json.Decoder` consumes the
whitespace-separated JSON values one at a time in the order they were
written, and `ReadMessage` decodes each in turn. -/
def readAllMessages (stream : List Json) : List (Except String ControlMessage) :=
  stream.map decodeMessage

theorem isPermanentError_wrap (p : String) (e : GoError) :
    isPermanentError (some (.wrap p e)) = isPermanentError (some e) := rfl

/-- C9: for every wrapping depth (`fmt.Errorf("...: %w", ·)` applied any
number of times, with any message texts) the permanence classifier
`isPermanentError` gives the same answer on the wrapped error as on the
inner error; in particular each permanent sentinel stays permanent under
wrapping. -/
theorem C9_permanent_stickiness (wraps : List String) (e : GoError) :
    isPermanentError (some (wrapMany wraps e)) = isPermanentError (some e) := by
  induction wraps with
  | nil => rfl
  | cons p ps ih => rw [wrapMany, isPermanentError_wrap, ih]

/-- C5: `firstError` returns the first element that is non-nil and not an
EOF sentinel — formalised as the head of the sublist of such elements — and
therefore returns nil when every element is nil or EOF, and nil on the
empty list. -/
theorem C5_first_error_law (errs : List (Option GoError)) :
    firstError errs = firstErrorSpec errs := by
  induction errs with
  | nil => rfl
  | cons e rest ih =>
    cases e with
    | none => simpa [firstError, firstErrorSpec] using ih
    | some err =>
      by_cases heof : errorsIs err .eof
      · simpa [firstError, firstErrorSpec, heof] using ih
      · simp [firstError, firstErrorSpec, heof]

theorem isPrefixOf_self (l : List Char) : l.isPrefixOf l = true := by
  induction l with
  | nil => rfl
  | cons c rest ih => simp [List.isPrefixOf, ih]

theorem any_tails_isPrefixOf (pre m : List Char) :
    ((pre ++ m).tails.any fun t => m.isPrefixOf t) = true := by
  induction pre with
  | nil =>
    cases m with
    | nil => rfl
    | cons c rest => simp [List.tails_cons, List.any_cons, isPrefixOf_self]
  | cons c pre ih => simp_all [List.tails_cons, List.any_cons]

/-- C1 is false on the code: the error `Run` builds from the server's
`error` reply uses `%s`, not `%w`, so it wraps no sentinel, and
`isPermanentError` — which recognises only the four sentinels — classifies
it as non-permanent even though its message contains "already in use". -/
theorem C1_counterexample :
    containsSub
        (errMessage (registrationError "subdomain 'demo' is already in use"))
        "already in use" = true ∧
    isPermanentError
        (some (registrationError "subdomain 'demo' is already in use")) = false := by
  constructor
  · rfl
  · rfl

/-- C1 amended: for every error-message reply, `Run` returns an error whose
message is "registration failed: " followed by the server's text — so the
text is preserved — but that error is not classified permanent by the
agent's classifier (which recognises only the four sentinels), and the
reconnect loop therefore retries it while retries remain instead of
returning it. -/
theorem C1_amended_registration_error :
    (∀ msg : String,
        errMessage (registrationError msg) = "registration failed: " ++ msg ∧
        containsSub (errMessage (registrationError msg)) msg = true ∧
        isPermanentError (some (registrationError msg)) = false) ∧
    (∀ (b : Backoff) (msg : String), b.MaxRetriesReached = false →
        (reconnectStep b ⟨false, some (registrationError msg)⟩).1 = .retry) := by
  refine ⟨fun msg => ⟨rfl, ?_, rfl⟩, fun b msg h => ?_⟩
  · show (("registration failed: " ++ msg).data.tails.any fun t =>
        msg.data.isPrefixOf t) = true
    rw [String.data_append]
    exact any_tails_isPrefixOf _ _
  · simp [reconnectStep, h, registrationError, isPermanentError, errorsIs]

/-- C1 witness: the amended statement applied to the server's
authentication-failure text and the default backoff state. -/
theorem C1_witness :
    (errMessage (registrationError "invalid or missing API key") =
        "registration failed: " ++ "invalid or missing API key" ∧
      containsSub (errMessage (registrationError "invalid or missing API key"))
        "invalid or missing API key" = true ∧
      isPermanentError (some (registrationError "invalid or missing API key")) = false) ∧
    (reconnectStep (NewBackoff DefaultBackoffConfig)
        ⟨false, some (registrationError "invalid or missing API key")⟩).1 = .retry :=
  ⟨C1_amended_registration_error.1 "invalid or missing API key",
   C1_amended_registration_error.2 (NewBackoff DefaultBackoffConfig)
     "invalid or missing API key" rfl⟩

theorem lookup_none_not_mem (l : Registry) (sub : String)
    (h : l.lookup sub = none) : sub ∉ l.map Prod.fst := by
  induction l with
  | nil => simp
  | cons p rest ih =>
    obtain ⟨k, v⟩ := p
    by_cases hk : sub = k
    · subst hk
      simp [List.lookup] at h
    · rw [List.lookup] at h
      have hb : (sub == k) = false := beq_false_of_ne hk
      rw [hb] at h
      simp only [List.map_cons, List.mem_cons]
      rintro (h1 | h2)
      · exact hk h1
      · exact ih h h2

theorem applyOp_nodup (l : Registry) (op : RegistryOp)
    (h : (l.map Prod.fst).Nodup) : ((applyOp l op).map Prod.fst).Nodup := by
  cases op with
  | register sub id =>
    show (((registerClient l sub id).1).map Prod.fst).Nodup
    cases hl : l.lookup sub with
    | some v => simpa [registerClient, hl] using h
    | none =>
      simp only [registerClient, hl, List.map_cons]
      exact List.nodup_cons.mpr ⟨lookup_none_not_mem l sub hl, h⟩
  | remove sub =>
    exact ((l.filter_sublist).map Prod.fst).nodup h

theorem applyTrace_nodup_aux (ops : List RegistryOp) :
    ∀ l : Registry, (l.map Prod.fst).Nodup →
      ((ops.foldl applyOp l).map Prod.fst).Nodup := by
  induction ops with
  | nil => intro l h; simpa
  | cons op rest ih => intro l h; exact ih _ (applyOp_nodup l op h)

/-- C2: for every serialised trace of registration and removal critical
sections — the registry lock makes the collision check and the insertion one
atomic step, so every concurrent execution is such a trace — the registry
maps each live subdomain to at most one tunnel (its key list is duplicate
free; every point in time is covered because every prefix of a trace is a
trace), and when the subdomain is already present the server replies
"subdomain '<x>' is already in use" and leaves the registry unchanged. -/
theorem C2_registry_uniqueness :
    (∀ ops : List RegistryOp, ((applyTrace ops).map Prod.fst).Nodup) ∧
    (∀ (clients : Registry) (sub : String) (id : ℕ),
        (clients.lookup sub).isSome →
        registerClient clients sub id =
          (clients, some ("subdomain '" ++ sub ++ "' is already in use"))) := by
  constructor
  · intro ops
    exact applyTrace_nodup_aux ops [] (by simp)
  · intro clients sub id h
    cases hl : clients.lookup sub with
    | none => rw [hl] at h; simp at h
    | some v => simp [registerClient, hl]

/-- C2 witness: a second registration of an occupied subdomain is refused
with the collision message and does not change the registry. -/
theorem C2_witness :
    registerClient [("demo", 0)] "demo" 1 =
      ([("demo", 0)], some ("subdomain '" ++ "demo" ++ "' is already in use")) :=
  C2_registry_uniqueness.2 [("demo", 0)] "demo" 1 (by decide)

theorem NextDelay_eq (b : Backoff) (u : ℚ) :
    b.NextDelay u =
      ({ b with attempt := b.attempt + 1 },
        let E := b.config.initialDelay * b.config.multiplier ^ b.attempt
        let c := if b.config.maxDelay < E then b.config.maxDelay else E
        let v := if 0 < b.config.jitter then c + (u * 2 - 1) * (c * b.config.jitter) else c
        if v < 0 then 0 else v) := rfl

/-- C3: `NextDelay` first increments the attempt counter to `n` and then
returns a delay in `[max 0 (d*(1-j)), d*(1+j)]` for
`d = min(initial * multiplier^(n-1), max)`; the delay is never negative, and
with zero jitter it equals the capped exponential exactly.  (`u ∈ [0,1]` is
the random draw `rng.Float64()`; `float64` arithmetic is modelled exactly.) -/
theorem C3_backoff_bounds (b : Backoff) (n : ℕ) (u : ℚ)
    (hmul : 1 < b.config.multiplier)
    (hj0 : 0 ≤ b.config.jitter) (hj1 : b.config.jitter ≤ 1)
    (hinit : 0 ≤ b.config.initialDelay) (hmax : 0 ≤ b.config.maxDelay)
    (hu0 : 0 ≤ u) (hu1 : u ≤ 1)
    (hn : b.attempt + 1 = n) :
    (b.NextDelay u).1.attempt = n ∧
    max 0 (backoffBase b.config n * (1 - b.config.jitter)) ≤ (b.NextDelay u).2 ∧
    (b.NextDelay u).2 ≤ backoffBase b.config n * (1 + b.config.jitter) ∧
    0 ≤ (b.NextDelay u).2 ∧
    (b.config.jitter = 0 → (b.NextDelay u).2 = backoffBase b.config n) := by
  subst hn
  have hmul0 : (0 : ℚ) ≤ b.config.multiplier := by linarith
  have hE0 : 0 ≤ b.config.initialDelay * b.config.multiplier ^ b.attempt :=
    mul_nonneg hinit (pow_nonneg hmul0 _)
  set E := b.config.initialDelay * b.config.multiplier ^ b.attempt with hEdef
  set d := min E b.config.maxDelay with hddef
  have hbase : backoffBase b.config (b.attempt + 1) = d := by
    simp [backoffBase, hddef, hEdef]
  have hd0 : 0 ≤ d := le_min hE0 hmax
  have hcap : (if b.config.maxDelay < E then b.config.maxDelay else E) = d := by
    rw [hddef]
    split_ifs with h
    · exact (min_eq_right h.le).symm
    · exact (min_eq_left (not_lt.mp h)).symm
  rw [NextDelay_eq]
  simp only [← hEdef, hcap, hbase]
  by_cases hj : 0 < b.config.jitter
  · rw [if_pos hj]
    have hdj0 : 0 ≤ d * b.config.jitter := mul_nonneg hd0 hj0
    have hvlow : d * (1 - b.config.jitter) ≤ d + (u * 2 - 1) * (d * b.config.jitter) := by
      nlinarith [mul_nonneg hu0 hdj0]
    have hvhigh : d + (u * 2 - 1) * (d * b.config.jitter) ≤ d * (1 + b.config.jitter) := by
      nlinarith [mul_nonneg (by linarith : (0 : ℚ) ≤ 1 - u) hdj0]
    have hlow0 : 0 ≤ d * (1 - b.config.jitter) := mul_nonneg hd0 (by linarith)
    have hv0 : 0 ≤ d + (u * 2 - 1) * (d * b.config.jitter) := le_trans hlow0 hvlow
    rw [if_neg (not_lt.mpr hv0)]
    refine ⟨by trivial, ?_, hvhigh, hv0, ?_⟩
    · rw [max_eq_right hlow0]
      exact hvlow
    · intro h0
      exact absurd (h0 ▸ hj) (lt_irrefl 0)
  · have hjz : b.config.jitter = 0 := le_antisymm (not_lt.mp hj) hj0
    rw [if_neg hj, if_neg (not_lt.mpr hd0)]
    refine ⟨by trivial, ?_, ?_, hd0, fun _ => rfl⟩
    · rw [hjz]
      simp [hd0]
    · rw [hjz]
      simp

/-- C3 witness: default-style configuration (initial 1, cap 10, multiplier 2,
jitter 1/4) at its first attempt with the draw `u = 1/2`. -/
theorem C3_witness :
    ((Backoff.mk ⟨1, 10, 2, 1/4, 0⟩ 0).NextDelay (1/2)).1.attempt = 1 ∧
    max 0 (backoffBase ⟨1, 10, 2, 1/4, 0⟩ 1 * (1 - (1/4 : ℚ))) ≤
      ((Backoff.mk ⟨1, 10, 2, 1/4, 0⟩ 0).NextDelay (1/2)).2 ∧
    ((Backoff.mk ⟨1, 10, 2, 1/4, 0⟩ 0).NextDelay (1/2)).2 ≤
      backoffBase ⟨1, 10, 2, 1/4, 0⟩ 1 * (1 + (1/4 : ℚ)) ∧
    0 ≤ ((Backoff.mk ⟨1, 10, 2, 1/4, 0⟩ 0).NextDelay (1/2)).2 ∧
    ((1/4 : ℚ) = 0 → ((Backoff.mk ⟨1, 10, 2, 1/4, 0⟩ 0).NextDelay (1/2)).2 =
      backoffBase ⟨1, 10, 2, 1/4, 0⟩ 1) :=
  C3_backoff_bounds (Backoff.mk ⟨1, 10, 2, 1/4, 0⟩ 0) 1 (1/2)
    (by norm_num) (by norm_num) (by norm_num) (by norm_num) (by norm_num)
    (by norm_num) (by norm_num) rfl

theorem step_transient (b : Backoff) (r : AttemptResult)
    (hreg : r.registered = false) (hsome : r.err.isSome = true)
    (hperm : isPermanentError r.err = false)
    (hmr : b.MaxRetriesReached = false) :
    reconnectStep b r = (.retry, { b with attempt := b.attempt + 1 }) := by
  obtain ⟨e, he⟩ := Option.isSome_iff_exists.mp hsome
  simp [reconnectStep, hreg, he, hmr, he ▸ hperm]

theorem step_limit (b : Backoff) (r : AttemptResult)
    (hreg : r.registered = false) (hsome : r.err.isSome = true)
    (hperm : isPermanentError r.err = false)
    (hmr : b.MaxRetriesReached = true) :
    reconnectStep b r = (.ret (some .maxRetriesExceeded), b) := by
  obtain ⟨e, he⟩ := Option.isSome_iff_exists.mp hsome
  simp [reconnectStep, hreg, he, hmr, he ▸ hperm]

theorem runWithReconnect_unfold (attempts : ℕ → AttemptResult) (b : Backoff)
    (i k : ℕ) :
    runWithReconnect attempts (fun _ => false) b i (k + 1) =
      (match reconnectStep b (attempts i) with
        | (.ret e, _) => some (e, i + 1)
        | (.retry, b') => runWithReconnect attempts (fun _ => false) b' (i + 1) k) := by
  rw [runWithReconnect]
  rcases reconnectStep b (attempts i) with ⟨o, b'⟩
  cases o <;> simp

/-- C8: with `max_retries = 3` and every attempt failing non-permanently,
the reconnect loop returns `ErrMaxRetriesExceeded` after three failed
reconnection attempts — four `Run` calls in total: the initial attempt plus
the three retries the backoff counts; in general an iteration returns
`ErrMaxRetriesExceeded` exactly when `MaxRetriesReached` reports the limit,
and `MaxRetriesReached` is always false when `max_retries = 0`. -/
theorem C8_max_retries :
    (∀ (attempts : ℕ → AttemptResult) (b : Backoff),
        b.config.maxRetries = 3 → b.attempt = 0 →
        (∀ i, (attempts i).registered = false ∧ (attempts i).err.isSome = true ∧
            isPermanentError (attempts i).err = false) →
        ∀ fuel, 4 ≤ fuel →
          runWithReconnect attempts (fun _ => false) b 0 fuel =
            some (some .maxRetriesExceeded, 4)) ∧
    (∀ (b : Backoff) (r : AttemptResult),
        (r.err.isNone || isPermanentError r.err) = false →
        ((reconnectStep b r).1 = .ret (some .maxRetriesExceeded) ↔
          (if r.registered then b.Reset else b).MaxRetriesReached = true)) ∧
    (∀ b : Backoff, b.config.maxRetries = 0 → b.MaxRetriesReached = false) := by
  refine ⟨?_, ?_, ?_⟩
  · intro attempts b h3 h0 hfail fuel hfuel
    obtain ⟨cfg, a⟩ := b
    simp only at h3 h0
    subst h0
    obtain ⟨k, rfl⟩ : ∃ k, fuel = k + 4 := ⟨fuel - 4, by omega⟩
    have hmr : ∀ m, m < 3 → Backoff.MaxRetriesReached ⟨cfg, m⟩ = false := by
      intro m hm
      simp only [Backoff.MaxRetriesReached, h3]
      simp
      omega
    have hmr3 : Backoff.MaxRetriesReached ⟨cfg, 3⟩ = true := by
      simp [Backoff.MaxRetriesReached, h3]
    have s0 : reconnectStep ⟨cfg, 0⟩ (attempts 0) = (.retry, ⟨cfg, 1⟩) :=
      step_transient _ _ (hfail 0).1 (hfail 0).2.1 (hfail 0).2.2 (hmr 0 (by omega))
    have s1 : reconnectStep ⟨cfg, 1⟩ (attempts 1) = (.retry, ⟨cfg, 2⟩) :=
      step_transient _ _ (hfail 1).1 (hfail 1).2.1 (hfail 1).2.2 (hmr 1 (by omega))
    have s2 : reconnectStep ⟨cfg, 2⟩ (attempts 2) = (.retry, ⟨cfg, 3⟩) :=
      step_transient _ _ (hfail 2).1 (hfail 2).2.1 (hfail 2).2.2 (hmr 2 (by omega))
    have s3 : reconnectStep ⟨cfg, 3⟩ (attempts 3) =
        (.ret (some .maxRetriesExceeded), ⟨cfg, 3⟩) :=
      step_limit _ _ (hfail 3).1 (hfail 3).2.1 (hfail 3).2.2 hmr3
    rw [runWithReconnect_unfold, s0]
    show runWithReconnect attempts (fun _ => false) ⟨cfg, 1⟩ 1 (k + 3) = _
    rw [runWithReconnect_unfold, s1]
    show runWithReconnect attempts (fun _ => false) ⟨cfg, 2⟩ 2 (k + 2) = _
    rw [runWithReconnect_unfold, s2]
    show runWithReconnect attempts (fun _ => false) ⟨cfg, 3⟩ 3 (k + 1) = _
    rw [runWithReconnect_unfold, s3]
  · intro b r h
    simp only [reconnectStep, h, Bool.false_eq_true, if_false]
    by_cases hm : (if r.registered then b.Reset else b).MaxRetriesReached
    · simp [hm]
    · simp [hm]
  · intro b h
    simp [Backoff.MaxRetriesReached, h]

/-- C8 witness: three retries with the edge not listening (every dial fails
with a non-permanent "connection refused") return `ErrMaxRetriesExceeded`
after the fourth failed `Run` call. -/
theorem C8_witness :
    runWithReconnect (fun _ => ⟨false, some (.errorf "connection refused")⟩)
        (fun _ => false) ⟨⟨1, 60, 2, 1/4, 3⟩, 0⟩ 0 4 =
      some (some .maxRetriesExceeded, 4) :=
  C8_max_retries.1 (fun _ => ⟨false, some (.errorf "connection refused")⟩)
    ⟨⟨1, 60, 2, 1/4, 3⟩, 0⟩ rfl rfl (fun _ => ⟨rfl, rfl, rfl⟩) 4 (by norm_num)

theorem hexDigit_lowerHex (n : ℕ) (h : n < 16) : isLowerHex (hexDigit n) = true := by
  interval_cases n <;> decide

theorem flatten_hex_length (bytes : List ℕ) :
    ((bytes.map hexEncodeByte).flatten).length = 2 * bytes.length := by
  induction bytes with
  | nil => rfl
  | cons b bs ih =>
    simp only [List.map_cons, List.flatten_cons, List.length_append, ih,
      hexEncodeByte, List.length_cons, List.length_cons, List.length_nil,
      List.length_cons]
    omega

theorem flatten_hex_chars (bytes : List ℕ) (hb : ∀ x ∈ bytes, x < 256) :
    ∀ c ∈ (bytes.map hexEncodeByte).flatten, isLowerHex c = true := by
  induction bytes with
  | nil => simp
  | cons b bs ih =>
    intro c hc
    simp only [List.map_cons, List.flatten_cons, hexEncodeByte,
      List.cons_append, List.nil_append, List.mem_cons] at hc
    have hb0 : b < 256 := hb b (List.mem_cons_self b bs)
    rcases hc with h | h | h
    · subst h
      exact hexDigit_lowerHex _ (by omega)
    · subst h
      exact hexDigit_lowerHex _ (by omega)
    · exact ih (fun x hx => hb x (List.mem_cons_of_mem b hx)) c h

/-- C6 is false on the code: a provided subdomain is not validated against
the subdomain grammar — `handleTunnelClient` passes any non-empty requested
string straight to the collision check, so a string violating the grammar is
registered without error. -/
theorem C6_counterexample :
    validSubdomainSpec "Bad_Subdomain!" = false ∧
    handleRegister "Bad_Subdomain!" [0, 0, 0, 0] [] 7 =
      ([("Bad_Subdomain!", 7)], none) := by
  constructor
  · decide
  · rfl

/-- C6 amended: if the requested subdomain is empty the edge assigns a fresh
identifier of exactly 8 lowercase hexadecimal characters built from 4 bytes
of the cryptographically strong source `crypto/rand`; if a subdomain is
provided, the edge uses it verbatim — performing no grammar validation —
and proceeds directly to the collision-checked insertion. -/
theorem C6_amended_subdomain_assignment :
    (∀ bytes : List ℕ, bytes.length = 4 → (∀ x ∈ bytes, x < 256) →
        (generateSubdomain bytes).length = 8 ∧
        ∀ c ∈ (generateSubdomain bytes).data, isLowerHex c = true) ∧
    (∀ (req : String) (bytes : List ℕ) (clients : Registry) (id : ℕ), req ≠ "" →
        handleRegister req bytes clients id = registerClient clients req id) ∧
    (∀ (bytes : List ℕ) (clients : Registry) (id : ℕ),
        handleRegister "" bytes clients id =
          registerClient clients (generateSubdomain bytes) id) := by
  refine ⟨fun bytes hlen hb => ⟨?_, ?_⟩, fun req bytes clients id hreq => ?_,
    fun bytes clients id => rfl⟩
  · show ((bytes.map hexEncodeByte).flatten).length = 8
    rw [flatten_hex_length, hlen]
  · exact flatten_hex_chars bytes hb
  · simp [handleRegister, hreq]

/-- C6 witness: the amended statement applied to the bytes `abcd1234` hex
encodes to, to a non-empty request and to an empty request. -/
theorem C6_witness :
    ((generateSubdomain [171, 205, 18, 52]).length = 8 ∧
      ∀ c ∈ (generateSubdomain [171, 205, 18, 52]).data, isLowerHex c = true) ∧
    handleRegister "demo" [1, 2, 3, 4] [] 0 = registerClient [] "demo" 0 ∧
    handleRegister "" [171, 205, 18, 52] [] 0 =
      registerClient [] (generateSubdomain [171, 205, 18, 52]) 0 :=
  ⟨C6_amended_subdomain_assignment.1 [171, 205, 18, 52] rfl (by decide),
   C6_amended_subdomain_assignment.2.1 "demo" [1, 2, 3, 4] [] 0 (by decide),
   C6_amended_subdomain_assignment.2.2 [171, 205, 18, 52] [] 0⟩

theorem splitOnChar_ne_nil (sep : Char) (l : List Char) : splitOnChar sep l ≠ [] := by
  cases l with
  | nil => simp [splitOnChar]
  | cons c rest =>
    rw [splitOnChar]
    split_ifs with h
    · simp
    · cases hrec : splitOnChar sep rest <;> simp

theorem splitOnChar_length (sep : Char) (l : List Char) :
    (splitOnChar sep l).length = l.count sep + 1 := by
  induction l with
  | nil => simp [splitOnChar]
  | cons c rest ih =>
    rw [splitOnChar]
    by_cases h : c = sep
    · rw [if_pos h]
      simp [List.count_cons, h, ih]
    · rw [if_neg h]
      cases hrec : splitOnChar sep rest with
      | nil => exact absurd hrec (splitOnChar_ne_nil sep rest)
      | cons p ps =>
        rw [hrec] at ih
        have hb : (c == sep) = false := beq_false_of_ne h
        simp only [List.length_cons, List.count_cons, hb, Bool.false_eq_true,
          if_false] at ih ⊢
        omega

theorem splitOnChar_headD (sep : Char) (l : List Char) :
    (splitOnChar sep l).headD [] = l.takeWhile fun c => c != sep := by
  induction l with
  | nil => rfl
  | cons c rest ih =>
    rw [splitOnChar]
    by_cases h : c = sep
    · rw [if_pos h]
      subst h
      simp [List.takeWhile_cons]
    · rw [if_neg h]
      cases hrec : splitOnChar sep rest with
      | nil => exact absurd hrec (splitOnChar_ne_nil sep rest)
      | cons p ps =>
        rw [hrec] at ih
        simp only [List.headD_cons] at ih
        simp [List.takeWhile_cons, h, ih]

theorem joinSep_splitOnChar (sep : Char) (l : List Char) :
    joinSep sep (splitOnChar sep l) = l := by
  induction l with
  | nil => rfl
  | cons c rest ih =>
    rw [splitOnChar]
    by_cases h : c = sep
    · rw [if_pos h]
      cases hrec : splitOnChar sep rest with
      | nil => exact absurd hrec (splitOnChar_ne_nil sep rest)
      | cons p ps =>
        rw [hrec] at ih
        simp [joinSep, ih, h]
    · rw [if_neg h]
      cases hrec : splitOnChar sep rest with
      | nil => exact absurd hrec (splitOnChar_ne_nil sep rest)
      | cons p ps =>
        rw [hrec] at ih
        cases ps with
        | nil =>
          simp only [joinSep] at ih ⊢
          rw [ih]
        | cons q t =>
          simp only [joinSep] at ih ⊢
          rw [List.cons_append, ih]

/-- C7: the subdomain extraction strips the port suffix exactly when the
host contains a single colon (several colons mean an IPv6 literal and are
left alone), splits the remainder on dots — `splitOnChar` is a genuine
splitter: rejoining with the separator restores the input — and yields the
leftmost label, i.e. the characters before the first dot, iff the remainder
has at least two labels (iff it contains a dot), and the empty string
otherwise; illustrated on a ported host, a plain host, a portless host, an
IPv6 literal and a single label. -/
theorem C7_extract_subdomain :
    (∀ host : String,
        extractSubdomain host =
          (let h := stripPort host
           if '.' ∈ h.data then ⟨h.data.takeWhile fun c => c != '.'⟩ else "")) ∧
    (∀ l : List Char, joinSep '.' (splitOnChar '.' l) = l) ∧
    extractSubdomain "abc123.tunnel.example.com:8080" = "abc123" ∧
    extractSubdomain "abc123.localhost" = "abc123" ∧
    extractSubdomain "localhost:8080" = "" ∧
    extractSubdomain "[2001:db8::1]:443" = "" ∧
    extractSubdomain "localhost" = "" := by
  refine ⟨fun host => ?_, joinSep_splitOnChar '.', by decide, by decide, by decide,
    by decide, by decide⟩
  show (if (splitOnChar '.' (stripPort host).data).length < 2 then ""
      else (⟨(splitOnChar '.' (stripPort host).data).headD []⟩ : String)) = _
  by_cases hm : '.' ∈ (stripPort host).data
  · have hc : 0 < (stripPort host).data.count '.' := List.count_pos_iff.mpr hm
    rw [if_neg (by rw [splitOnChar_length]; omega), if_pos hm, splitOnChar_headD]
  · have hc : (stripPort host).data.count '.' = 0 := by
      rw [List.count_eq_zero]
      exact hm
    rw [if_pos (by rw [splitOnChar_length, hc]; omega), if_neg hm]

theorem copyChunks_flatten (l : List ℕ) : (copyChunks l).flatten = l := by
  induction l using copyChunks.induct with
  | case1 => simp [copyChunks]
  | case2 b rest ih =>
    rw [copyChunks, List.flatten_cons, ih]
    exact List.take_append_drop _ _

/-- C4: for every byte sequence `B` of length up to 1 MiB written into one
endpoint of the splice before that endpoint signals end-of-stream, exactly
the bytes of `B`, in order, are delivered to the opposing endpoint, whose
write side is then half-closed so its reader observes EOF right after them;
the splice is two such unidirectional copies, and with both copies ending at
a clean EOF it reports no error. -/
theorem C4_splice_transparency (B C : List ℕ) (hB : B.length ≤ 1048576) :
    (Bidirectional B C none none).toConn2.delivered = B ∧
    (Bidirectional B C none none).toConn2.closedWrite = true ∧
    (Bidirectional B C none none).toConn1.delivered = C ∧
    (Bidirectional B C none none).toConn1.closedWrite = true ∧
    (Bidirectional B C none none).err = none :=
  ⟨copyChunks_flatten B, rfl, copyChunks_flatten C, rfl, rfl⟩

/-- C4 witness: a concrete splice of `[7, 8, 9]` against `[4, 5]`. -/
theorem C4_witness :
    (Bidirectional [7, 8, 9] [4, 5] none none).toConn2.delivered = [7, 8, 9] ∧
    (Bidirectional [7, 8, 9] [4, 5] none none).toConn2.closedWrite = true ∧
    (Bidirectional [7, 8, 9] [4, 5] none none).toConn1.delivered = [4, 5] ∧
    (Bidirectional [7, 8, 9] [4, 5] none none).toConn1.closedWrite = true ∧
    (Bidirectional [7, 8, 9] [4, 5] none none).err = none :=
  C4_splice_transparency [7, 8, 9] [4, 5] (by norm_num)

/-- C10: encoding any of the five control-message variants with its send
method and reading the produced JSON value back returns the same variant
with equal fields and no error, and a back-to-back sequence of messages on
one stream is read back one at a time in the order written. -/
theorem C10_roundtrip :
    (∀ m : ControlMessage, decodeMessage (encodeMessage m) = .ok m) ∧
    (∀ ms : List ControlMessage,
        readAllMessages (ms.map encodeMessage) = ms.map Except.ok) := by
  have h1 : ∀ m : ControlMessage, decodeMessage (encodeMessage m) = .ok m := by
    intro m
    cases m with
    | register sub tok =>
      by_cases hs : sub = "" <;> by_cases ht : tok = "" <;>
        simp [encodeMessage, decodeMessage, getStringField, hs, ht,
          List.lookup] <;> rfl
    | registered url sub =>
      simp [encodeMessage, decodeMessage, getStringField, List.lookup] <;> rfl
    | heartbeat => rfl
    | heartbeatAck => rfl
    | error msg =>
      simp [encodeMessage, decodeMessage, getStringField, List.lookup] <;> rfl
  refine ⟨h1, fun ms => ?_⟩
  rw [readAllMessages, List.map_map]
  exact List.map_congr_left fun m _ => h1 m

end Otun
